import Mathlib

/-!
Shallow embedding of `src/hexworld/mcts.py` (flood-simulation MCTS / rollout
policy engine).  The `World` class, the water-simulation step functions
(`simRain`, `simFlow`, `randDrainFail`, `simDrain`) and the numeric constants
live outside the given sources, so they are carried as abstract parameters in
a context structure `Ctx`; everything below that layer is translated directly
from `mcts.py`.  Randomness (`random.choices`, the stochastic drain failure)
is modelled by threading a natural-number seed through an oracle `ora`.
-/

namespace Hexworld

/-- Modelled from the spec: one grid cell with the attributes named in §3 of
the design (integer coordinates, water level, flooded flag, population); the
`World`/cell classes themselves are external collaborators not present in the
given sources. -/
structure Hex where
  x : ℤ
  y : ℤ
  water_level : ℚ
  is_flooded : Bool
  population : ℚ
deriving DecidableEq, Inhabited

/-- A coordinate pair `(x, y)` as used for actions. -/
abbrev Coord := ℤ × ℤ

/-- An action: a list of coordinates of cells to evacuate this step. -/
abbrev Action := List Coord

/-- Modelled from the spec: the world state exposes an ordered collection of
cells (`hexes`, iterated by `narrow_action_space` and `calculate_reward`) and
an `(x, y)`-indexed lookup `grid` (read by `calculate_reward`); the `World`
class is an external collaborator not present in the given sources. -/
structure World where
  hexes : List Hex
  grid : ℤ → ℤ → Hex

/-- Context of externally supplied constants, collaborator functions and the
randomness oracle.  `FLOOD_LEVEL`, `MAX_EVAC_CELLS`, the reward weights and
the sample count `m` come from `constants.py`; `evacF` is the World
collaborator's evacuation-apply operation; `simRainF` (with the fixed
precipitation rate folded in), `simFlowF`, `simDrainF` are the deterministic
simulation steps, and `randDrainFailF` is the stochastic drain-failure step,
consuming the random seed.  `ora` realises each elementary random draw. -/
structure Ctx where
  FLOOD_LEVEL : ℚ
  MAX_EVAC_CELLS : ℕ
  m : ℕ
  c : ℝ
  R_FLOOD_EVAC : ℚ
  R_DRY_EVAC : ℚ
  R_FLOOD_NO_EVAC : ℚ
  R_DRY_NO_EVAC : ℚ
  evacF : World → Action → World
  simRainF : World → World
  simFlowF : World → World
  simDrainF : World → World
  randDrainFailF : World → ℕ → World × ℕ
  ora : ℕ → ℕ

/-- Python's `copy.deepcopy` on a world: with value semantics a deep copy is
the value itself (independence of the copy is proved separately against the
heap model below). -/
def deepcopy (w : World) : World := w

/-- Filtering step shared by `narrow_action_space` and its dynamic-attribute
variant: keep cells with `water_level > 0.25*FLOOD_LEVEL` that are not yet
flooded, and return their coordinates (mcts.py lines 56-61). -/
def narrowHexes (ctx : Ctx) (hexes : List Hex) : List Coord :=
  ((hexes.filter fun h =>
      decide (h.water_level > 0.25 * ctx.FLOOD_LEVEL) && !h.is_flooded).map
    fun h => (h.x, h.y))

/-- `MCTS.narrow_action_space` (mcts.py lines 54-61). -/
def narrow_action_space (ctx : Ctx) (state : World) : List Coord :=
  narrowHexes ctx state.hexes

/-- Enumeration phase of `MCTS.get_branched_actions` (mcts.py lines 106-114):
all combinations of sizes `0..len(coord_space)` when the candidate set is
smaller than the capacity, otherwise sizes `0..MAX_EVAC_CELLS`.
`List.sublistsLen i` plays the role of `itertools.combinations(-, i)`. -/
def enumerateActions (coordSpace : List Coord) (capacity : ℕ) : List Action :=
  if coordSpace.length < capacity then
    ((List.range (coordSpace.length + 1)).map
      fun i => List.sublistsLen i coordSpace).flatten
  else
    ((List.range (capacity + 1)).map
      fun i => List.sublistsLen i coordSpace).flatten

/-- `random.choices(l, k=k)`: `k` independent uniform draws with replacement,
each draw realised by the oracle `ora` at successive seed positions. -/
def choices (ora : ℕ → ℕ) (l : List α) (k s : ℕ) (d : α) : List α × ℕ :=
  ((List.range k).map fun j => l.getD (ora (s + j) % l.length) d, s + k)

/-- `MCTS.get_branched_actions` (mcts.py lines 102-122): enumerate, then
return the whole space if it has fewer than `m` elements, otherwise sample
`m` actions with replacement. -/
def get_branched_actions (ctx : Ctx) (state : World) (s : ℕ) :
    List Action × ℕ :=
  let action_space := enumerateActions (narrow_action_space ctx state)
    ctx.MAX_EVAC_CELLS
  if action_space.length < ctx.m then (action_space, s)
  else choices ctx.ora action_space ctx.m s []

lemma sum_map_range_eq (f : ℕ → ℕ) (n : ℕ) :
    ((List.range n).map f).sum = ∑ i ∈ Finset.range n, f i := by
  induction n with
  | zero => simp
  | succ k ih =>
    rw [List.range_succ, List.map_append, List.sum_append,
      Finset.sum_range_succ, ih]
    simp

lemma enumerateActions_eq_min (cs : List Coord) (k : ℕ) :
    enumerateActions cs k
      = ((List.range (min k cs.length + 1)).map
          fun i => List.sublistsLen i cs).flatten := by
  unfold enumerateActions
  by_cases h : cs.length < k
  · rw [if_pos h, min_eq_right (le_of_lt h)]
  · rw [if_neg h, min_eq_left (Nat.le_of_not_lt h)]

/-- C3: for a candidate coordinate set of size `n` and capacity `k`, the
enumeration phase of `get_branched_actions` produces exactly
`Σ_{i=0..min(k,n)} C(n,i)` actions, the empty action is among them, and the
actions produced are exactly the combinations (order-preserving sublists) of
every size `0..min(k,n)`. -/
theorem enumerateActions_spec (cs : List Coord) (k : ℕ) :
    (enumerateActions cs k).length
        = ∑ i ∈ Finset.range (min k cs.length + 1), Nat.choose cs.length i
      ∧ [] ∈ enumerateActions cs k
      ∧ ∀ a : Action,
          a ∈ enumerateActions cs k ↔ a.Sublist cs ∧ a.length ≤ min k cs.length := by
  rw [enumerateActions_eq_min]
  refine ⟨?_, ?_, ?_⟩
  · rw [List.length_flatten, List.map_map]
    have h := sum_map_range_eq
      (fun i => (List.sublistsLen i cs).length) (min k cs.length + 1)
    simp only [Function.comp_def] at h ⊢
    rw [h]
    exact Finset.sum_congr rfl fun i _ => List.length_sublistsLen i cs
  · simp only [List.mem_flatten, List.mem_map, List.mem_range]
    exact ⟨List.sublistsLen 0 cs, ⟨0, Nat.succ_pos _, rfl⟩, by simp⟩
  · intro a
    simp only [List.mem_flatten, List.mem_map, List.mem_range, Nat.lt_succ_iff]
    constructor
    · rintro ⟨pl, ⟨i, hi, rfl⟩, ha⟩
      rcases List.mem_sublistsLen.1 ha with ⟨hsub, hlen⟩
      exact ⟨hsub, hlen ▸ hi⟩
    · rintro ⟨hsub, hlen⟩
      exact ⟨List.sublistsLen a.length cs, ⟨a.length, hlen, rfl⟩,
        List.mem_sublistsLen.2 ⟨hsub, rfl⟩⟩

/-- C6: `narrow_action_space` returns exactly the coordinates of the cells
whose water level strictly exceeds a quarter of the flood threshold and that
are not yet flooded. -/
theorem narrow_action_space_mem (ctx : Ctx) (state : World) (co : Coord) :
    co ∈ narrow_action_space ctx state ↔
      ∃ h ∈ state.hexes, (h.x, h.y) = co ∧
        h.water_level > 0.25 * ctx.FLOOD_LEVEL ∧ h.is_flooded = false := by
  simp only [narrow_action_space, narrowHexes, List.mem_map, List.mem_filter,
    Bool.and_eq_true, decide_eq_true_eq, Bool.not_eq_true']
  constructor
  · rintro ⟨h, ⟨hmem, hw, hf⟩, rfl⟩
    exact ⟨h, hmem, rfl, hw, hf⟩
  · rintro ⟨h, hmem, rfl, hw, hf⟩
    exact ⟨h, ⟨hmem, hw, hf⟩, rfl⟩

/-! ### Extended float values for the UCB1 score

`MCTS.ucb1` computes with Python/numpy floats: `float("inf")`, `np.log` and
`np.sqrt`.  Under numpy's default error state `np.log(0)` only warns and
evaluates to `-inf`, and `np.sqrt` of a negative value only warns and
evaluates to `nan`; no exception is raised.  The value domain is modelled
exactly as a real number together with the three special values, with the
IEEE-754 rules for the operations that occur in `ucb1`. -/

/-- An IEEE-style extended value: a finite real, `+inf`, `-inf`, or `nan`. -/
inductive EF where
  | fin : ℝ → EF
  | inf : EF
  | neginf : EF
  | nan : EF

/-- IEEE addition on extended values. -/
noncomputable def efAdd : EF → EF → EF
  | .fin x, .fin y => .fin (x + y)
  | .nan, _ => .nan
  | _, .nan => .nan
  | .inf, .neginf => .nan
  | .neginf, .inf => .nan
  | .inf, _ => .inf
  | _, .inf => .inf
  | .neginf, _ => .neginf
  | _, .neginf => .neginf

/-- IEEE multiplication on extended values (note `0 * ±inf = nan`). -/
noncomputable def efMul : EF → EF → EF
  | .fin x, .fin y => .fin (x * y)
  | .nan, _ => .nan
  | _, .nan => .nan
  | .fin x, .inf => if 0 < x then .inf else if x < 0 then .neginf else .nan
  | .fin x, .neginf => if 0 < x then .neginf else if x < 0 then .inf else .nan
  | .inf, .fin y => if 0 < y then .inf else if y < 0 then .neginf else .nan
  | .neginf, .fin y => if 0 < y then .neginf else if y < 0 then .inf else .nan
  | .inf, .inf => .inf
  | .inf, .neginf => .neginf
  | .neginf, .inf => .neginf
  | .neginf, .neginf => .inf

/-- IEEE division on extended values, for the cases `ucb1` can reach. -/
noncomputable def efDiv : EF → EF → EF
  | .fin x, .fin y =>
      if y = 0 then (if x = 0 then .nan else if 0 < x then .inf else .neginf)
      else .fin (x / y)
  | .nan, _ => .nan
  | _, .nan => .nan
  | .inf, .fin y => if 0 ≤ y then .inf else .neginf
  | .neginf, .fin y => if 0 ≤ y then .neginf else .inf
  | .fin _, .inf => .fin 0
  | .fin _, .neginf => .fin 0
  | .inf, .inf => .nan
  | .inf, .neginf => .nan
  | .neginf, .inf => .nan
  | .neginf, .neginf => .nan

/-- `np.sqrt` on extended values: `nan` (with only a warning) on negatives. -/
noncomputable def efSqrt : EF → EF
  | .fin x => if x < 0 then .nan else .fin (Real.sqrt x)
  | .inf => .inf
  | .neginf => .nan
  | .nan => .nan

/-- `np.log` applied to a visit count: `np.log(0)` evaluates to `-inf` with
only a runtime warning under numpy's default error state. -/
noncomputable def efLogNat (n : ℕ) : EF :=
  if n = 0 then .neginf else .fin (Real.log n)

/-- `MCTS.ucb1` (mcts.py lines 133-137) on a node with cumulative reward
`reward`, visit count `visits` and parent visit count `parentVisits`:
`float("inf")` for an unvisited node, otherwise
`reward/visits + c * np.sqrt(np.log(parentVisits) / visits)`. -/
noncomputable def ucb1 (c reward : ℝ) (visits parentVisits : ℕ) : EF :=
  if visits = 0 then .inf
  else
    efAdd (.fin (reward / (visits : ℝ)))
      (efMul (.fin c) (efSqrt (efDiv (efLogNat parentVisits) (.fin (visits : ℝ)))))

lemma ucb1_parentZero (c reward : ℝ) (visits : ℕ) (hv : visits ≠ 0) :
    ucb1 c reward visits 0 = EF.nan := by
  have h0 : (0 : ℝ) ≤ (visits : ℝ) := Nat.cast_nonneg visits
  simp [ucb1, hv, efLogNat, efDiv, efSqrt, efMul, efAdd, h0]

lemma ucb1_eval (c reward : ℝ) (visits parentVisits : ℕ) (hv : visits ≠ 0)
    (hp : 1 ≤ parentVisits) :
    ucb1 c reward visits parentVisits
      = EF.fin (reward / (visits : ℝ)
          + c * Real.sqrt (Real.log (parentVisits : ℝ) / (visits : ℝ))) := by
  have hvR : ((visits : ℝ)) ≠ 0 := Nat.cast_ne_zero.mpr hv
  have hpR : (1 : ℝ) ≤ (parentVisits : ℝ) := by exact_mod_cast hp
  have hlog : 0 ≤ Real.log (parentVisits : ℝ) := Real.log_nonneg hpR
  have hdiv : 0 ≤ Real.log (parentVisits : ℝ) / (visits : ℝ) :=
    div_nonneg hlog (Nat.cast_nonneg visits)
  have hp0 : parentVisits ≠ 0 := by omega
  simp [ucb1, hv, efLogNat, hp0, efDiv, hvR, efSqrt, not_lt.mpr hdiv,
    efMul, efAdd]

/-- C2 counterexample: scoring a visited node whose parent has zero visits
does not surface as a fatal error; `ucb1` silently evaluates to the
nonsensical score `nan` (via `np.log(0) = -inf` and `np.sqrt(-inf) = nan`,
both mere warnings under numpy defaults). -/
theorem ucb1_parent_zero_counterexample : ucb1 0 0 1 0 = EF.nan :=
  ucb1_parentZero 0 0 1 one_ne_zero

/-- C2 amended: evaluating the selection score of a visited node whose parent
has zero visits silently produces the nonsensical score `nan` (no fatal
error is raised), for every exploration constant and accumulated reward. -/
theorem ucb1_parent_zero_nan (c reward : ℝ) (visits : ℕ) (hv : visits ≠ 0) :
    ucb1 c reward visits 0 = EF.nan :=
  ucb1_parentZero c reward visits hv

/-- C2 witness: the amended statement at a concrete input. -/
theorem ucb1_parent_zero_nan_witness : ucb1 1 2 3 0 = EF.nan :=
  ucb1_parent_zero_nan 1 2 3 (by decide)

/-- C7: the selection score is `+inf` exactly when the node has zero visits,
regardless of its accumulated reward; for a visited node (and a visited
parent, where `ln` is defined) the score is the finite value
`reward/visits + c * sqrt(ln(parentVisits)/visits)`. -/
theorem ucb1_inf_iff_spec (c reward : ℝ) (visits parentVisits : ℕ) :
    (ucb1 c reward visits parentVisits = EF.inf ↔ visits = 0)
      ∧ (visits ≠ 0 → 1 ≤ parentVisits →
          ucb1 c reward visits parentVisits
            = EF.fin (reward / (visits : ℝ)
                + c * Real.sqrt (Real.log (parentVisits : ℝ) / (visits : ℝ)))) := by
  constructor
  · constructor
    · intro h
      by_contra hv
      rcases Nat.eq_zero_or_pos parentVisits with hp | hp
      · rw [hp, ucb1_parentZero c reward visits hv] at h
        exact EF.noConfusion h
      · rw [ucb1_eval c reward visits parentVisits hv hp] at h
        exact EF.noConfusion h
    · intro h
      simp [ucb1, h]
  · exact ucb1_eval c reward visits parentVisits

/-- C7 witness: the formula part of the statement at a concrete input. -/
theorem ucb1_inf_iff_spec_witness :
    ucb1 0 5 1 1
      = EF.fin ((5 : ℝ) / ((1 : ℕ) : ℝ)
          + 0 * Real.sqrt (Real.log (((1 : ℕ) : ℝ)) / ((1 : ℕ) : ℝ))) :=
  (ucb1_inf_iff_spec 0 5 1 1).2 (by decide) (le_refl 1)

/-- C8 counterexample: with the code's exploration constant `c = 0`, a node
with cumulative reward `-1` scores `-1` after one visit and `-1/2` after two
visits (parent visited once): the selection score strictly increases with
the visit count, so it is not monotonically non-increasing. -/
theorem ucb1_mono_counterexample :
    ucb1 0 (-1) 1 1 = EF.fin (-1) ∧ ucb1 0 (-1) 2 1 = EF.fin (-(1 / 2))
      ∧ ((-1 : ℝ) < -(1 / 2)) := by
  refine ⟨?_, ?_, by norm_num⟩
  · rw [ucb1_eval 0 (-1) 1 1 one_ne_zero (le_refl 1)]
    norm_num
  · rw [ucb1_eval 0 (-1) 2 1 two_ne_zero (le_refl 1)]
    norm_num

/-- C8 amended: for a visited node with a visited parent, the selection score
is finite, and it is monotonically non-increasing in the visit count for
fixed cumulative reward and fixed parent visits provided the cumulative
reward and the exploration constant are non-negative (with a negative
cumulative reward the average-reward term increases with the visit count,
as the counterexample shows). -/
theorem ucb1_monotone_nonneg (c reward : ℝ) (v₁ v₂ parentVisits : ℕ)
    (h₁ : 1 ≤ v₁) (h₁₂ : v₁ ≤ v₂) (hp : 1 ≤ parentVisits)
    (hr : 0 ≤ reward) (hc : 0 ≤ c) :
    ∃ x₁ x₂ : ℝ, ucb1 c reward v₁ parentVisits = EF.fin x₁
      ∧ ucb1 c reward v₂ parentVisits = EF.fin x₂ ∧ x₂ ≤ x₁ := by
  have hv₁ : v₁ ≠ 0 := by omega
  have hv₂ : v₂ ≠ 0 := by omega
  refine ⟨_, _, ucb1_eval c reward v₁ parentVisits hv₁ hp,
    ucb1_eval c reward v₂ parentVisits hv₂ hp, ?_⟩
  have hv₁R : (0 : ℝ) < (v₁ : ℝ) := by exact_mod_cast Nat.pos_of_ne_zero hv₁
  have h₁₂R : ((v₁ : ℝ)) ≤ (v₂ : ℝ) := by exact_mod_cast h₁₂
  have hlog : 0 ≤ Real.log (parentVisits : ℝ) :=
    Real.log_nonneg (by exact_mod_cast hp)
  gcongr

/-- C8 witness: the amended statement at a concrete input. -/
theorem ucb1_monotone_nonneg_witness :
    ∃ x₁ x₂ : ℝ, ucb1 0 0 1 1 = EF.fin x₁ ∧ ucb1 0 0 2 1 = EF.fin x₂
      ∧ x₂ ≤ x₁ :=
  ucb1_monotone_nonneg 0 0 1 2 1 (le_refl 1) (by decide) (le_refl 1)
    (le_refl 0) (le_refl 0)

/-! ### Reward model -/

/-- One iteration of the reward loop in `MCTS.calculate_reward` (mcts.py
lines 65-78): four independent `if` statements, each adding one weighted
term when its boolean pair matches. -/
def rewardStep (ctx : Ctx) (action : Action) (next_state : World)
    (reward : ℚ) (hex : Hex) : ℚ :=
  let fl := (next_state.grid hex.x hex.y).is_flooded
  let reward := if (hex.x, hex.y) ∈ action ∧ fl = true then
    reward + ctx.R_FLOOD_EVAC * hex.population else reward
  let reward := if (hex.x, hex.y) ∈ action ∧ ¬fl = true then
    reward + ctx.R_DRY_EVAC * hex.population else reward
  let reward := if (hex.x, hex.y) ∉ action ∧ fl = true then
    reward + ctx.R_FLOOD_NO_EVAC * hex.population else reward
  let reward := if (hex.x, hex.y) ∉ action ∧ ¬fl = true then
    reward + ctx.R_DRY_NO_EVAC * hex.population else reward
  reward

/-- `MCTS.calculate_reward` (mcts.py lines 63-79): fold the four-way `if`
block over every cell of the pre-action state, starting from `0`. -/
def calculate_reward (ctx : Ctx) (state : World) (action : Action)
    (next_state : World) : ℚ :=
  state.hexes.foldl (rewardStep ctx action next_state) 0

/-- The single term a cell contributes: one of the four weights, selected by
the boolean pair (coordinate in action?, flooded in successor?), times the
cell's population. -/
def cellPayoff (ctx : Ctx) (action : Action) (next_state : World)
    (hex : Hex) : ℚ :=
  (if (hex.x, hex.y) ∈ action then
    (if (next_state.grid hex.x hex.y).is_flooded then ctx.R_FLOOD_EVAC
      else ctx.R_DRY_EVAC)
   else
    (if (next_state.grid hex.x hex.y).is_flooded then ctx.R_FLOOD_NO_EVAC
      else ctx.R_DRY_NO_EVAC)) * hex.population

lemma rewardStep_eq_add_cellPayoff (ctx : Ctx) (action : Action)
    (next_state : World) (reward : ℚ) (hex : Hex) :
    rewardStep ctx action next_state reward hex
      = reward + cellPayoff ctx action next_state hex := by
  unfold rewardStep cellPayoff
  by_cases hm : (hex.x, hex.y) ∈ action <;>
    cases hfl : (next_state.grid hex.x hex.y).is_flooded <;>
      simp [hm, hfl]

lemma foldl_rewardStep (ctx : Ctx) (action : Action) (next_state : World) :
    ∀ (l : List Hex) (acc : ℚ),
      l.foldl (rewardStep ctx action next_state) acc
        = acc + (l.map (cellPayoff ctx action next_state)).sum
  | [], acc => by simp
  | hex :: rest, acc => by
    rw [List.foldl_cons, rewardStep_eq_add_cellPayoff,
      foldl_rewardStep ctx action next_state rest, List.map_cons,
      List.sum_cons]
    ring

/-- C9: `calculate_reward` sums over the cells of the pre-action state, each
cell contributing exactly the one weighted term selected by the boolean pair
(coordinate in action?, flooded in successor?) times its population; the
four cases are mutually exclusive and exhaustive per cell, as the four
implications make explicit. -/
theorem calculate_reward_per_cell (ctx : Ctx) (state : World)
    (action : Action) (next_state : World) :
    calculate_reward ctx state action next_state
        = (state.hexes.map (cellPayoff ctx action next_state)).sum
      ∧ ∀ hex : Hex,
          ((hex.x, hex.y) ∈ action →
            (next_state.grid hex.x hex.y).is_flooded = true →
            cellPayoff ctx action next_state hex
              = ctx.R_FLOOD_EVAC * hex.population)
        ∧ ((hex.x, hex.y) ∈ action →
            (next_state.grid hex.x hex.y).is_flooded = false →
            cellPayoff ctx action next_state hex
              = ctx.R_DRY_EVAC * hex.population)
        ∧ ((hex.x, hex.y) ∉ action →
            (next_state.grid hex.x hex.y).is_flooded = true →
            cellPayoff ctx action next_state hex
              = ctx.R_FLOOD_NO_EVAC * hex.population)
        ∧ ((hex.x, hex.y) ∉ action →
            (next_state.grid hex.x hex.y).is_flooded = false →
            cellPayoff ctx action next_state hex
              = ctx.R_DRY_NO_EVAC * hex.population) := by
  refine ⟨?_, ?_⟩
  · rw [calculate_reward, foldl_rewardStep]
    simp
  · intro hex
    refine ⟨fun hm hfl => ?_, fun hm hfl => ?_, fun hm hfl => ?_,
      fun hm hfl => ?_⟩ <;> simp [cellPayoff, hm, hfl]

/-- A sample concrete context (collaborators are identities, the oracle is
constant) used by the witness theorems. -/
def ctx₀ : Ctx where
  FLOOD_LEVEL := 4
  MAX_EVAC_CELLS := 1
  m := 20
  c := 0
  R_FLOOD_EVAC := -1
  R_DRY_EVAC := 1
  R_FLOOD_NO_EVAC := -2
  R_DRY_NO_EVAC := 0
  evacF := fun w _ => w
  simRainF := id
  simFlowF := id
  simDrainF := id
  randDrainFailF := fun w s => (w, s)
  ora := fun _ => 0

/-- A sample one-cell dry world used by the witness theorems. -/
def hex₀ : Hex := ⟨0, 0, 0, false, 1⟩

/-- A sample world holding just `hex₀`. -/
def w₀ : World := ⟨[hex₀], fun _ _ => hex₀⟩

/-- C9 witness: the per-cell case facts at a concrete input. -/
theorem calculate_reward_per_cell_witness :
    calculate_reward ctx₀ w₀ [] w₀ = (w₀.hexes.map (cellPayoff ctx₀ [] w₀)).sum
      ∧ cellPayoff ctx₀ [] w₀ hex₀ = ctx₀.R_DRY_NO_EVAC * hex₀.population :=
  ⟨(calculate_reward_per_cell ctx₀ w₀ [] w₀).1,
    ((calculate_reward_per_cell ctx₀ w₀ [] w₀).2 hex₀).2.2.2
      (by decide) (by decide)⟩

/-! ### State transition and its frame property

`MCTS.get_next_state` is given twice: as a pure value-level function (used by
the rollout and policy embeddings) and, for the mutation claim, over an
explicit heap of world objects in which `deepcopy` allocates a fresh
reference and every collaborator call mutates in place at the reference it
is handed — the worst case allowed by the collaborator contract. -/

/-- `MCTS.get_next_state` (mcts.py lines 39-52) as a pure function: deep-copy
the state, apply the evacuation, then rain, flow, random drain failure
(consuming the seed) and drainage, in that order. -/
def get_next_state (ctx : Ctx) (state : World) (action : Action) (s : ℕ) :
    World × ℕ :=
  let next_state := deepcopy state
  let next_state := ctx.evacF next_state action
  let next_state := ctx.simRainF next_state
  let next_state := ctx.simFlowF next_state
  let d := ctx.randDrainFailF next_state s
  (ctx.simDrainF d.1, d.2)

/-- A heap of world objects: references `0..size-1` are live. -/
structure Heap where
  size : ℕ
  mem : ℕ → World

/-- Overwrite the object at reference `r`. -/
def Heap.write (h : Heap) (r : ℕ) (w : World) : Heap :=
  ⟨h.size, fun i => if i = r then w else h.mem i⟩

/-- Allocate a fresh reference holding `w`. -/
def Heap.alloc (h : Heap) (w : World) : Heap × ℕ :=
  (⟨h.size + 1, fun i => if i = h.size then w else h.mem i⟩, h.size)

/-- `copy.deepcopy` on the heap: allocate a fresh object with the same
value. -/
def deepcopyH (h : Heap) (r : ℕ) : Heap × ℕ :=
  h.alloc (h.mem r)

/-- Run a collaborator step in place at reference `r`. -/
def applyAtH (f : World → World) (h : Heap) (r : ℕ) : Heap :=
  h.write r (f (h.mem r))

/-- `MCTS.get_next_state` over the heap: the copy is made first and every
subsequent operation acts only on the copy's reference.  Returns the final
heap, the reference of the successor state, and the advanced seed. -/
def get_next_state_h (ctx : Ctx) (h : Heap) (r : ℕ) (action : Action)
    (s : ℕ) : Heap × ℕ × ℕ :=
  let a := deepcopyH h r
  let h1 := a.1
  let n := a.2
  let h2 := applyAtH (fun w => ctx.evacF w action) h1 n
  let h3 := applyAtH ctx.simRainF h2 n
  let h4 := applyAtH ctx.simFlowF h3 n
  let d := ctx.randDrainFailF (h4.mem n) s
  let h5 := h4.write n d.1
  let h6 := applyAtH ctx.simDrainF h5 n
  (h6, n, d.2)

/-- C5: `get_next_state` never mutates its input state: after the call the
object at the input reference is unchanged, the returned successor lives at
a different (fresh) reference, and its value is exactly the pure composition
of the evacuation and simulation steps applied to a copy of the input. -/
theorem get_next_state_no_mutation (ctx : Ctx) (h : Heap) (r : ℕ)
    (action : Action) (s : ℕ) (hr : r < h.size) :
    (get_next_state_h ctx h r action s).1.mem r = h.mem r
      ∧ (get_next_state_h ctx h r action s).2.1 ≠ r
      ∧ (get_next_state_h ctx h r action s).1.mem
            (get_next_state_h ctx h r action s).2.1
          = (get_next_state ctx (h.mem r) action s).1 := by
  have hne : r ≠ h.size := Nat.ne_of_lt hr
  refine ⟨?_, fun hc => hne hc.symm, ?_⟩
  · simp [get_next_state_h, deepcopyH, Heap.alloc, Heap.write, applyAtH, hne]
  · simp [get_next_state_h, get_next_state, deepcopy, deepcopyH, Heap.alloc,
      Heap.write, applyAtH]

/-- A sample one-object heap used by the C5 witness. -/
def heap₀ : Heap := ⟨1, fun _ => w₀⟩

/-- C5 witness: the frame property at a concrete input. -/
theorem get_next_state_no_mutation_witness :
    (get_next_state_h ctx₀ heap₀ 0 [] 0).1.mem 0 = heap₀.mem 0
      ∧ (get_next_state_h ctx₀ heap₀ 0 [] 0).2.1 ≠ 0
      ∧ (get_next_state_h ctx₀ heap₀ 0 [] 0).1.mem
            (get_next_state_h ctx₀ heap₀ 0 [] 0).2.1
          = (get_next_state ctx₀ (heap₀.mem 0) [] 0).1 :=
  get_next_state_no_mutation ctx₀ heap₀ 0 [] 0 (by decide)

/-! ### Rollout evaluator and the flat one-level policy `RandAct` -/

/-- Thread the random seed through a list traversal (the Python list
comprehensions evaluate left to right, each element's computation consuming
randomness in order). -/
def mapRand (f : α → ℕ → β × ℕ) : List α → ℕ → List β × ℕ
  | [], s => ([], s)
  | a :: t, s =>
    let b := f a s
    let rest := mapRand f t b.2
    (b.1 :: rest.1, rest.2)

/-- Loop body of `MCTS.random_rollout` (mcts.py lines 87-99): at each step
take the whole filtered candidate set when it is smaller than the capacity,
otherwise sample `MAX_EVAC_CELLS` coordinates with replacement; advance the
state and accumulate the reward of the step. -/
def rollLoop (ctx : Ctx) : ℕ → World → ℚ → ℕ → ℚ × ℕ
  | 0, _, utility, s => (utility, s)
  | steps + 1, rollout_state, utility, s =>
    let action_space := narrow_action_space ctx rollout_state
    let ev := if action_space.length < ctx.MAX_EVAC_CELLS then
        (action_space, s)
      else choices ctx.ora action_space ctx.MAX_EVAC_CELLS s (0, 0)
    let nx := get_next_state ctx rollout_state ev.1 ev.2
    rollLoop ctx steps nx.1
      (utility + calculate_reward ctx rollout_state ev.1 nx.1) nx.2

/-- `MCTS.random_rollout` (mcts.py lines 82-100): copy the state, then run
the rollout loop for `steps` steps starting from utility `0`. -/
def random_rollout (ctx : Ctx) (state : World) (steps s : ℕ) : ℚ × ℕ :=
  rollLoop ctx steps (deepcopy state) 0 s

/-- Python's `max` on a nonempty list of numbers (`0` for the empty list,
which the callers guard against). -/
def pyMax : List ℚ → ℚ
  | [] => 0
  | x :: xs => xs.foldl max x

/-- Python's `list.index`: position of the first element equal to `a`. -/
def pyIndex (a : ℚ) : List ℚ → ℕ
  | [] => 0
  | x :: xs => if x = a then 0 else pyIndex a xs + 1

/-- `RandAct` (mcts.py lines 154-167): sample candidate actions, return the
empty list when there are none; otherwise build the successor of each
candidate, roll each successor out for `t` steps, and return the candidate
at the index of the maximum rollout utility. -/
def RandAct (ctx : Ctx) (state : World) (t s : ℕ) : Action × ℕ :=
  let sp := get_branched_actions ctx state s
  if sp.1.isEmpty then ([], sp.2)
  else
    let ns := mapRand (fun action s => get_next_state ctx state action s)
      sp.1 sp.2
    let rr := mapRand (fun st s => random_rollout ctx st t s) ns.1 ns.2
    (sp.1.getD (pyIndex (pyMax rr.1) rr.1) [], rr.2)

lemma mapRand_length (f : α → ℕ → β × ℕ) :
    ∀ (l : List α) (s : ℕ), (mapRand f l s).1.length = l.length
  | [], _ => rfl
  | _ :: t, s => by
    simp [mapRand, mapRand_length f t]

lemma le_seed_foldl_max : ∀ (xs : List ℚ) (x : ℚ), x ≤ xs.foldl max x
  | [], _ => le_refl _
  | y :: ys, x =>
    le_trans (le_max_left x y) (le_seed_foldl_max ys (max x y))

lemma mem_le_foldl_max :
    ∀ (xs : List ℚ) (x a : ℚ), a ∈ xs → a ≤ xs.foldl max x
  | y :: ys, x, a, h => by
    rcases List.mem_cons.1 h with rfl | h
    · exact le_trans (le_max_right x a) (le_seed_foldl_max ys (max x a))
    · exact mem_le_foldl_max ys (max x y) a h

lemma pyMax_ge (l : List ℚ) (a : ℚ) (h : a ∈ l) : a ≤ pyMax l := by
  match l with
  | x :: xs =>
    rcases List.mem_cons.1 h with rfl | h
    · exact le_seed_foldl_max xs a
    · exact mem_le_foldl_max xs x a h

lemma foldl_max_mem : ∀ (xs : List ℚ) (x : ℚ), xs.foldl max x ∈ x :: xs
  | [], x => List.mem_singleton.2 rfl
  | y :: ys, x => by
    have h := foldl_max_mem ys (max x y)
    rcases List.mem_cons.1 h with h | h
    · rcases max_choice x y with hm | hm <;> rw [List.foldl_cons, h, hm]
      · exact List.mem_cons_self _ _
      · exact List.mem_cons_of_mem _ (List.mem_cons_self _ _)
    · exact List.mem_cons_of_mem _ (List.mem_cons_of_mem _ h)

lemma pyMax_mem (l : List ℚ) (h : l ≠ []) : pyMax l ∈ l := by
  match l with
  | x :: xs => exact foldl_max_mem xs x

lemma pyIndex_lt (a : ℚ) :
    ∀ (l : List ℚ), a ∈ l → pyIndex a l < l.length
  | x :: xs, h => by
    by_cases hx : x = a
    · simp [pyIndex, hx]
    · have : a ∈ xs := by
        rcases List.mem_cons.1 h with rfl | h
        · exact absurd rfl hx
        · exact h
      simpa [pyIndex, hx] using pyIndex_lt a xs this

lemma getD_pyIndex (a : ℚ) :
    ∀ (l : List ℚ), a ∈ l → l.getD (pyIndex a l) 0 = a
  | x :: xs, h => by
    by_cases hx : x = a
    · simp [pyIndex, hx]
    · have hm : a ∈ xs := by
        rcases List.mem_cons.1 h with rfl | h
        · exact absurd rfl hx
        · exact h
      simpa [pyIndex, hx] using getD_pyIndex a xs hm

lemma pyIndex_first (a : ℚ) :
    ∀ (l : List ℚ) (j : ℕ), j < pyIndex a l → l.getD j 0 ≠ a
  | [], j, hj => by simp [pyIndex] at hj
  | x :: xs, j, hj => by
    by_cases hx : x = a
    · simp [pyIndex, hx] at hj
    · cases j with
      | zero => simpa using hx
      | succ k =>
        have hk : k < pyIndex a xs := by
          have := hj
          simp only [pyIndex, hx, if_false] at this
          omega
        simpa using pyIndex_first a xs k hk

lemma getD_mem_of_lt (l : List ℚ) (j : ℕ) (hj : j < l.length) :
    l.getD j 0 ∈ l := by
  induction l generalizing j with
  | nil => simp at hj
  | cons x xs ih =>
    cases j with
    | zero => simp
    | succ k =>
      rw [List.getD_cons_succ]
      exact List.mem_cons_of_mem _ (ih k (by simpa using hj))

/-- C4: `RandAct` returns the empty action set when no candidate actions
exist, and otherwise returns the candidate action (at the first such index)
whose successor state achieved the maximum rollout utility among the
evaluated candidates. -/
theorem RandAct_argmax (ctx : Ctx) (state : World) (t s : ℕ) :
    let sp := get_branched_actions ctx state s
    let ns := mapRand (fun action s => get_next_state ctx state action s)
      sp.1 sp.2
    let rr := mapRand (fun st s => random_rollout ctx st t s) ns.1 ns.2
    (sp.1 = [] → RandAct ctx state t s = ([], sp.2))
      ∧ (sp.1 ≠ [] →
          ∃ i : ℕ, i < sp.1.length
            ∧ RandAct ctx state t s = (sp.1.getD i [], rr.2)
            ∧ rr.1.getD i 0 = pyMax rr.1
            ∧ (∀ q ∈ rr.1, q ≤ rr.1.getD i 0)
            ∧ ∀ j < i, rr.1.getD j 0 < rr.1.getD i 0) := by
  intro sp ns rr
  constructor
  · intro h
    rw [RandAct]
    simp only [List.isEmpty_iff]
    rw [if_pos h]
  · intro h
    have hrrlen : rr.1.length = sp.1.length := by
      show (mapRand _ ns.1 ns.2).1.length = sp.1.length
      rw [mapRand_length, mapRand_length]
    have hrrne : rr.1 ≠ [] := by
      intro hc
      apply h
      have : rr.1.length = 0 := by rw [hc]; rfl
      rw [hrrlen] at this
      exact List.length_eq_zero.1 this
    have hmem : pyMax rr.1 ∈ rr.1 := pyMax_mem rr.1 hrrne
    refine ⟨pyIndex (pyMax rr.1) rr.1, ?_, ?_, ?_, ?_, ?_⟩
    · rw [← hrrlen]
      exact pyIndex_lt _ _ hmem
    · rw [RandAct]
      simp only [List.isEmpty_iff]
      rw [if_neg h]
    · exact getD_pyIndex _ _ hmem
    · intro q hq
      rw [getD_pyIndex _ _ hmem]
      exact pyMax_ge _ _ hq
    · intro j hj
      have hne := pyIndex_first (pyMax rr.1) rr.1 j hj
      have hjlen : j < rr.1.length :=
        lt_trans hj (pyIndex_lt _ _ hmem)
      have hle : rr.1.getD j 0 ≤ pyMax rr.1 :=
        pyMax_ge _ _ (getD_mem_of_lt _ _ hjlen)
      rw [getD_pyIndex _ _ hmem]
      exact lt_of_le_of_ne hle hne

/-- C4 witness: the nonempty-candidates branch at a concrete input (the
one-cell dry world has the empty action as its only candidate). -/
theorem RandAct_argmax_witness :
    let sp := get_branched_actions ctx₀ w₀ 0
    let ns := mapRand (fun action s => get_next_state ctx₀ w₀ action s)
      sp.1 sp.2
    let rr := mapRand (fun st s => random_rollout ctx₀ st 0 s) ns.1 ns.2
    ∃ i : ℕ, i < sp.1.length
      ∧ RandAct ctx₀ w₀ 0 0 = (sp.1.getD i [], rr.2)
      ∧ rr.1.getD i 0 = pyMax rr.1
      ∧ (∀ q ∈ rr.1, q ≤ rr.1.getD i 0)
      ∧ ∀ j < i, rr.1.getD j 0 < rr.1.getD i 0 :=
  (RandAct_argmax ctx₀ w₀ 0 0).2 (by
    have h1 : List.range 1 = [0] := rfl
    norm_num [get_branched_actions, enumerateActions, narrow_action_space,
      narrowHexes, ctx₀, w₀, hex₀, h1, List.sublistsLen_zero])

/-! ### Search tree: nodes, expansion, best action

The Python `Node` carries a parent back-reference, used by `ucb1` only to
read `node.parent.visits`; the embedding keeps nodes parent-free and passes
the parent's visit count explicitly where the code reads it through the
back-reference. -/

/-- The MCTS tree node (mcts.py lines 10-18): state, producing action,
children, visit count, cumulative reward, depth. -/
inductive Node where
  | mk (state : Option World) (action : Option Action) (children : List Node)
      (visits : ℕ) (reward : ℝ) (curr_depth : ℕ)

/-- The `state` attribute. -/
def Node.state : Node → Option World
  | .mk st _ _ _ _ _ => st

/-- The `action` attribute. -/
def Node.action : Node → Option Action
  | .mk _ a _ _ _ _ => a

/-- The `children` attribute. -/
def Node.children : Node → List Node
  | .mk _ _ ch _ _ _ => ch

/-- The `visits` attribute. -/
def Node.visits : Node → ℕ
  | .mk _ _ _ v _ _ => v

/-- The `reward` attribute. -/
def Node.reward : Node → ℝ
  | .mk _ _ _ _ r _ => r

/-- `Node.__init__` (mcts.py lines 11-18): the constructor receives a world
state but assigns `self.state = None`, discarding the argument; action,
parent and children start empty, visits, reward and depth start at zero. -/
def Node.init (_state : World) : Node :=
  .mk none none [] 0 0 0

/-- The assignment `child.action = action` in `expand` (mcts.py line 145). -/
def Node.setAction : Node → Option Action → Node
  | .mk st _ ch v r d, a => .mk st a ch v r d

/-- `Node.add_child` (mcts.py lines 20-22): append to the children list (the
parent back-reference it also sets is carried implicitly, see above). -/
def Node.add_child : Node → Node → Node
  | .mk st a ch v r d, child => .mk st a (ch ++ [child]) v r d

/-- A Python object as it flows into `narrow_action_space`: `expand` (mcts.py
line 141) passes the `Node` object itself where every other caller passes a
`World`. -/
inductive PyObj where
  | world : World → PyObj
  | node : Node → PyObj

/-- The dynamic attribute access `state.hexes` (mcts.py line 56): a `Node`
defines no `hexes` attribute, so the access raises `AttributeError`. -/
def hexesAttr : PyObj → Except String (List Hex)
  | .world w => .ok w.hexes
  | .node _ => .error "AttributeError: Node object has no attribute hexes"

/-- `MCTS.narrow_action_space` on a dynamically typed argument. -/
def narrow_action_space_dyn (ctx : Ctx) (o : PyObj) :
    Except String (List Coord) :=
  (hexesAttr o).map (narrowHexes ctx)

/-- `MCTS.get_branched_actions` on a dynamically typed argument. -/
def get_branched_actions_dyn (ctx : Ctx) (o : PyObj) (s : ℕ) :
    Except String (List Action × ℕ) := do
  let coord_space ← narrow_action_space_dyn ctx o
  let action_space := enumerateActions coord_space ctx.MAX_EVAC_CELLS
  if action_space.length < ctx.m then return (action_space, s)
  else return choices ctx.ora action_space ctx.m s []

/-- `get_next_state(node.state, action)` when `node.state` may be `None`:
`deepcopy(None)` is `None` and `None.evacWorld(...)` raises. -/
def get_next_state_opt (ctx : Ctx) (st : Option World) (action : Action)
    (s : ℕ) : Except String (World × ℕ) :=
  match st with
  | none => .error "AttributeError: NoneType object has no attribute evacWorld"
  | some w => .ok (get_next_state ctx w action s)

/-- The loop of `MCTS.expand` (mcts.py lines 143-147): for each action build
a child node from the successor state, record the action on it, and collect
the children in order. -/
def expandChildren (ctx : Ctx) (st : Option World) :
    List Action → ℕ → Except String (List Node × ℕ)
  | [], s => .ok ([], s)
  | action :: rest, s => do
    let nx ← get_next_state_opt ctx st action s
    let child := (Node.init nx.1).setAction (some action)
    let r ← expandChildren ctx st rest nx.2
    return (child :: r.1, r.2)

/-- `MCTS.expand` (mcts.py lines 139-147): note line 141 passes `node`, not
`node.state`, to `get_branched_actions`. -/
def expand (ctx : Ctx) (node : Node) (s : ℕ) : Except String (Node × ℕ) := do
  let acts ← get_branched_actions_dyn ctx (.node node) s
  let ch ← expandChildren ctx node.state acts.1 acts.2
  return (ch.1.foldl Node.add_child node, ch.2)

/-- C1 (code bug): for every node — even one holding a world state — `expand`
raises `AttributeError` before creating or attaching any child, because it
passes the node object itself (not the node's state) to
`get_branched_actions`, whose `narrow_action_space` reads the missing
`hexes` attribute; and independently `Node.__init__` discards the state it
is given (`self.state = None`), so a freshly created child never holds the
successor state. -/
theorem expand_attribute_error (ctx : Ctx) (node : Node) (s : ℕ) (w : World) :
    expand ctx node s
        = Except.error "AttributeError: Node object has no attribute hexes"
      ∧ (Node.init w).state = none :=
  ⟨rfl, rfl⟩

/-- Python float `>` on extended values (`nan` compares false with
everything). -/
noncomputable def efGtb : EF → EF → Bool
  | .nan, _ => false
  | _, .nan => false
  | .fin x, .fin y => decide (y < x)
  | .inf, .inf => false
  | .inf, _ => true
  | _, .inf => false
  | .neginf, _ => false
  | .fin _, .neginf => true

/-- Python float `==` on extended values (`nan` is not equal to itself). -/
noncomputable def efEqb : EF → EF → Bool
  | .nan, _ => false
  | _, .nan => false
  | .fin x, .fin y => decide (x = y)
  | .inf, .inf => true
  | .neginf, .neginf => true
  | _, _ => false

/-- Python's `max` on a list of float scores: `ValueError` on an empty list,
otherwise the left fold keeping the current value unless a later item is
strictly greater. -/
noncomputable def pyListMax : List EF → Except String EF
  | [] => .error "ValueError: max arg is an empty sequence"
  | x :: xs =>
    .ok (xs.foldl (fun cur item => if efGtb item cur then item else cur) x)

/-- Python's `list.index` on float scores: position of the first element
comparing equal. -/
noncomputable def pyIndexEF (a : EF) : List EF → ℕ
  | [] => 0
  | x :: xs => if efEqb x a then 0 else pyIndexEF a xs + 1

/-- `MCTS.get_best_action` (mcts.py lines 124-130): score every child with
`ucb1` (reading the parent's visit count through the child's back-reference),
take the maximum, and return the action of the child at the index of that
maximum. -/
noncomputable def get_best_action (ctx : Ctx) (parent : Node) :
    Except String (Option Action) := do
  let ucb1_values := parent.children.map
    fun child => ucb1 ctx.c child.reward child.visits parent.visits
  let mx ← pyListMax ucb1_values
  return (parent.children.getD (pyIndexEF mx ucb1_values)
    (.mk none none [] 0 0 0)).action

/-- C10: on a parent whose children list is empty, `get_best_action` raises
(Python's `max` of an empty sequence) rather than returning a default or
empty action. -/
theorem get_best_action_empty_error (ctx : Ctx) (st : Option World)
    (a : Option Action) (v : ℕ) (r : ℝ) (d : ℕ) :
    get_best_action ctx (Node.mk st a [] v r d)
      = Except.error "ValueError: max arg is an empty sequence" :=
  rfl

end Hexworld
